import Mathlib

/-!
Verification development for `inkshed.py`, a configuration-driven note
generator.  The Python source is shallowly embedded: Python strings are
modelled as `List Char` (so that structural recursion and `decide` work),
Python dicts as association lists with dict-style insert/update, Python
exceptions as an `Except PyError` monad, and the ambient effects of the
program (file system, current date, home directory) as explicit parameters.

Modelling conventions, noted once here:
* `str` values are `List Char`; `toL` converts a Lean string literal.
* Python 2 `unicode.lower` / `\w` / `\s` are modelled by the corresponding
  ASCII-faithful `Char` predicates of Lean; every concrete input used in a
  theorem below is ASCII, where the two agree.
* Python dicts are association lists whose keys are unique by construction
  (`dictInsert` replaces in place); iteration order is modelled as insertion
  order.
-/

/-- Python strings are embedded as lists of characters. -/
abbrev Str : Type := List Char

/-- Convert a Lean string literal into the embedded string type. -/
def toL (s : String) : Str := s.data

/-- Dict lookup: first (= unique) binding of a key in an association list. -/
def lookup {α : Type} (m : List (Str × α)) (k : Str) : Option α :=
  match m with
  | [] => none
  | (k', v) :: rest => if k' = k then some v else lookup rest k

/-- Python `d[k] = v`: replace the binding in place if the key is present,
otherwise append it.  Mirrors CPython dict assignment observably (lookup and
iteration order). -/
def dictInsert {α : Type} (m : List (Str × α)) (k : Str) (v : α) : List (Str × α) :=
  match m with
  | [] => [(k, v)]
  | (k', v') :: rest =>
    if k' = k then (k', v) :: rest else (k', v') :: dictInsert rest k v

/-- Python `a.update(b)`: assign every binding of `b` into `a`, in order. -/
def dictUpdate {α : Type} (a b : List (Str × α)) : List (Str × α) :=
  b.foldl (fun acc kv => dictInsert acc kv.1 kv.2) a

/-- The keys of an association list are pairwise distinct.  Holds for every
list produced by the dict operations above; used as a hypothesis where a
layer of the merge is universally quantified. -/
def NoDupKeys {α : Type} (m : List (Str × α)) : Prop :=
  (m.map Prod.fst).Nodup

instance {α : Type} (m : List (Str × α)) : Decidable (NoDupKeys m) := by
  unfold NoDupKeys; infer_instance

/-- The Python exceptions that the embedded code can raise. -/
inductive PyError : Type where
  /-- `ValueError`, the class the script itself raises for configuration,
  storage and template problems (its `ConfigError` in the taxonomy of the
  spec), and also what the format mini-language raises for bad specifiers. -/
  | valueError (msg : Str)
  /-- `KeyError` from `str.format`, raised for a placeholder whose key is
  absent (the spec calls this a `TemplateError`). -/
  | keyError (key : Str)
  /-- `AttributeError` from the dynamic transform lookup `getattr(orig, name)`
  in `AugmentedStr.__format__` (the spec files this under `ConfigError`). -/
  | attributeError (name : Str)
  /-- `ConfigParser.NoSectionError`, raised by `parser.items(section)` when
  the section does not exist; carries the section name. -/
  | noSectionError (section_ : Str)
  /-- `TypeError`, raised when the zero-argument call of a resolved
  attribute needs arguments (or the attribute is not callable). -/
  | typeError (name : Str)
  /-- `IndexError` from `str.format` when a positional (empty or numeric)
  field is used with keyword-only arguments. -/
  | indexError
  /-- A failed `assert` statement. -/
  | assertionError
deriving DecidableEq, Repr

/-! ### Character classes

`isWordChar` models `\w` (with `re.UNICODE`, restricted to ASCII as noted
above), `isPySpace` models `\s` and the default `str.split`/`str.strip`
whitespace, `isQuoteChar` the two apostrophes of the slugify regexes. -/

/-- Model of the regex class `\w`: letters, digits and underscore. -/
def isWordChar (c : Char) : Bool := c.isAlphanum || c = '_'

/-- Model of Python whitespace (`\s`, `str.split()`, `str.strip()`). -/
def isPySpace (c : Char) : Bool :=
  c = ' ' || c = '\t' || c = '\n' || c = '\r' || c = '\x0b' || c = '\x0c'

/-- The two apostrophe characters handled by `slugify`. -/
def isQuoteChar (c : Char) : Bool := c = '\'' || c = '’'

/-! ### String Transform Engine (`AugmentedStr`, src lines 39-108) -/

/-- `str.strip()`: remove leading and trailing whitespace. -/
def pyStrip (s : Str) : Str :=
  ((s.dropWhile isPySpace).reverse.dropWhile isPySpace).reverse

/-- `str.lower()` (ASCII case fold, see the conventions above). -/
def pyLower (s : Str) : Str := s.map Char.toLower

/-- `str.upper()` (ASCII case fold). -/
def pyUpper (s : Str) : Str := s.map Char.toUpper

/-- `str.split()` with no argument: split on whitespace runs, dropping empty
components.  `cur` accumulates the current word in reverse. -/
def pySplitWsGo (cur : Str) : Str → List Str
  | [] => if cur = [] then [] else [cur.reverse]
  | c :: rest =>
    if isPySpace c then
      if cur = [] then pySplitWsGo [] rest
      else cur.reverse :: pySplitWsGo [] rest
    else pySplitWsGo (c :: cur) rest

/-- `str.split()` with no argument. -/
def pySplitWs (s : Str) : List Str := pySplitWsGo [] s

/-- `AugmentedStr.dashed` (src lines 74-82): `'-'.join(self.split())`. -/
def dashed (s : Str) : Str := List.intercalate ['-'] (pySplitWs s)

/-- The `normalizer.split` / `''.join` step of `slugify` (src line 103):
delete each apostrophe that has a word character immediately before and
after it in the original string.  `prev` is the previous original character. -/
def deApostrophe (prev : Option Char) : Str → Str
  | [] => []
  | c :: rest =>
    if isQuoteChar c
        && (match prev with | some p => isWordChar p | none => false)
        && (match rest.head? with | some n => isWordChar n | none => false)
    then deApostrophe (some c) rest
    else c :: deApostrophe (some c) rest

/-- `re.split` of a single-character class with a `maxsplit` bound: split at
each character satisfying `sep`, performing at most `budget` splits; once the
budget is exhausted the remainder is kept verbatim as the final component.
This models `splitter.split(depostrophed, re.UNICODE)` on src line 105, where
`re.UNICODE` (= 32) is passed in the `maxsplit` position of the compiled
pattern's `split` method. -/
def splitMax (sep : Char → Bool) : Nat → Str → List Str
  | _, [] => [[]]
  | 0, s => [s]
  | budget + 1, c :: rest =>
    if sep c then [] :: splitMax sep budget rest
    else
      match splitMax sep (budget + 1) rest with
      | [] => [[c]]
      | h :: t => (c :: h) :: t

/-- `AugmentedStr.slugify` (src lines 84-108) with the default separator:
lowercase, delete inter-word apostrophes, split on characters that are
neither word characters nor apostrophes (with the `maxsplit = re.UNICODE = 32`
bound of the source), and join the non-empty components with dashes.
`decode('UTF-8')`/`encode('UTF-8')` are the identity in this model. -/
def slugify (s : Str) : Str :=
  let unistr := pyLower s
  let depostrophed := deApostrophe none unistr
  let components := splitMax (fun c => !(isWordChar c || isQuoteChar c)) 32 depostrophed
  List.intercalate ['-'] (components.filter (fun c => c ≠ []))

/-! ### The remaining zero-argument `str` methods

`apply_method` (src line 66) resolves transform names dynamically with
`getattr(orig, name)()`, so every attribute of a Python 2 `str` is
reachable from a format specifier, not only the transforms the program's
docstrings use.  The zero-argument methods are embedded below (ASCII
convention as above); `AugmentedStr(result)` stringifies non-string
results, so the boolean testers yield `True`/`False` and the splitting
methods yield the `repr` of their list (modelled without escape handling,
faithful for values free of quotes and backslashes). -/

/-- `str.lstrip()`. -/
def pyLstrip (s : Str) : Str := s.dropWhile isPySpace

/-- `str.rstrip()`. -/
def pyRstrip (s : Str) : Str := (s.reverse.dropWhile isPySpace).reverse

/-- `str.capitalize()`: first character uppercased, the rest lowercased. -/
def pyCapitalize : Str → Str
  | [] => []
  | c :: rest => c.toUpper :: rest.map Char.toLower

/-- `str.swapcase()`. -/
def pySwapcase (s : Str) : Str :=
  s.map (fun c => if c.isUpper then c.toLower else if c.isLower then c.toUpper else c)

/-- `str.title()`: a letter is uppercased after a non-letter and lowercased
after a letter. -/
def pyTitleGo (prevAlpha : Bool) : Str → Str
  | [] => []
  | c :: rest =>
    if c.isAlpha then (if prevAlpha then c.toLower else c.toUpper) :: pyTitleGo true rest
    else c :: pyTitleGo false rest

/-- `str.title()`. -/
def pyTitle (s : Str) : Str := pyTitleGo false s

/-- `str.expandtabs()` with the default tab size 8; `col` is the current
column, reset by a newline or carriage return. -/
def pyExpandtabsGo (col : Nat) : Str → Str
  | [] => []
  | c :: rest =>
    if c = '\t' then
      List.replicate (8 - col % 8) ' ' ++ pyExpandtabsGo (col + (8 - col % 8)) rest
    else if c = '\n' ∨ c = '\r' then c :: pyExpandtabsGo 0 rest
    else c :: pyExpandtabsGo (col + 1) rest

/-- `str.expandtabs()`. -/
def pyExpandtabs (s : Str) : Str := pyExpandtabsGo 0 s

/-- `str(b)` for a boolean, as `AugmentedStr` stringifies tester results. -/
def boolRepr (b : Bool) : Str := if b then toL "True" else toL "False"

/-- `str.isalnum()`. -/
def pyIsAlnum (s : Str) : Str := boolRepr (s ≠ [] && s.all Char.isAlphanum)

/-- `str.isalpha()`. -/
def pyIsAlpha (s : Str) : Str := boolRepr (s ≠ [] && s.all Char.isAlpha)

/-- `str.isdigit()`. -/
def pyIsDigit (s : Str) : Str := boolRepr (s ≠ [] && s.all Char.isDigit)

/-- `str.islower()`: at least one cased character and no uppercase one. -/
def pyIsLower (s : Str) : Str := boolRepr (s.any Char.isAlpha && !s.any Char.isUpper)

/-- `str.isupper()`. -/
def pyIsUpper (s : Str) : Str := boolRepr (s.any Char.isAlpha && !s.any Char.isLower)

/-- `str.isspace()`. -/
def pyIsSpace (s : Str) : Str := boolRepr (s ≠ [] && s.all isPySpace)

/-- `str.istitle()`: uppercase letters only after non-letters, lowercase
letters only after letters, and at least one letter. -/
def pyIsTitleGo (prevCased found : Bool) : Str → Bool
  | [] => found
  | c :: rest =>
    if c.isUpper then (if prevCased then false else pyIsTitleGo true true rest)
    else if c.isLower then (if prevCased then pyIsTitleGo true found rest else false)
    else pyIsTitleGo false found rest

/-- `str.istitle()`. -/
def pyIsTitle (s : Str) : Str := boolRepr (pyIsTitleGo false false s)

/-- `repr` of one string element of a list, without escape handling. -/
def pyQuoteRepr (x : Str) : Str := '\'' :: x ++ ['\'']

/-- `repr` of a list of strings, as `str(list)` produces. -/
def pyListRepr (xs : List Str) : Str :=
  '[' :: List.intercalate (toL ", ") (xs.map pyQuoteRepr) ++ [']']

/-- `str.split()` under `AugmentedStr`: the list, stringified. -/
def pySplitRepr (s : Str) : Str := pyListRepr (pySplitWs s)

/-- `str.splitlines()`: split at line ends, none kept, no trailing empty
component for a terminal newline. -/
def pySplitLines (cur : Str) : Str → List Str
  | [] => if cur = [] then [] else [cur.reverse]
  | '\r' :: '\n' :: rest => cur.reverse :: pySplitLines [] rest
  | '\n' :: rest => cur.reverse :: pySplitLines [] rest
  | '\r' :: rest => cur.reverse :: pySplitLines [] rest
  | c :: rest => pySplitLines (c :: cur) rest

/-- `str.splitlines()` under `AugmentedStr`: the list, stringified. -/
def pySplitlinesRepr (s : Str) : Str := pyListRepr (pySplitLines [] s)

/-! ### Standard string formatting (`str.__format__`)

The source delegates to `str.__format__(result, strfmt)` after applying the
transform chain (src line 72).  The model below implements the
`[[fill]align][width][.precision][s]` subset of the format specification
mini-language for strings; every specifier outside the subset is a
`ValueError`, as in Python (which raises `ValueError` for all malformed or
inapplicable specifiers).  `none` encodes the raised `ValueError`. -/

/-- Alignment characters of the format mini-language. -/
def isAlignChar (c : Char) : Bool := c = '<' || c = '>' || c = '^' || c = '='

/-- Parse `[[fill]align]` from the head of a specifier; the default for
strings is left alignment with a space fill. -/
def parseFillAlign (spec : Str) : Char × Char × Str :=
  match spec with
  | f :: a :: rest =>
    if isAlignChar a then (f, a, rest)
    else if isAlignChar f then (' ', f, a :: rest)
    else (' ', '<', spec)
  | [a] => if isAlignChar a then (' ', a, []) else (' ', '<', spec)
  | [] => (' ', '<', [])

/-- Digits-to-number helper for widths and precisions. -/
def natOfDigits (ds : Str) : Nat :=
  ds.foldl (fun n c => n * 10 + (c.toNat - 48)) 0

/-- Pad `s` to `width` with `fill` according to `align` (string semantics:
`^` puts the extra character on the right). -/
def padTo (fill align : Char) (width : Nat) (s : Str) : Str :=
  if width ≤ s.length then s
  else
    let n := width - s.length
    match align with
    | '>' => List.replicate n fill ++ s
    | '^' => List.replicate (n / 2) fill ++ s ++ List.replicate (n - n / 2) fill
    | _ => s ++ List.replicate n fill

/-- `str.__format__` on the subset described above; `none` models the
`ValueError` Python raises for a specifier that is malformed or not
applicable to strings (for example `=` alignment). -/
def strFormatCore (s : Str) (spec : Str) : Option Str :=
  let (fill, align, r1) := parseFillAlign spec
  let widthDigits := r1.takeWhile Char.isDigit
  let r2 := r1.dropWhile Char.isDigit
  let width := natOfDigits widthDigits
  let precAndRest : Option (Option Nat × Str) :=
    match r2 with
    | '.' :: r3 =>
      let precDigits := r3.takeWhile Char.isDigit
      if precDigits = [] then none
      else some (some (natOfDigits precDigits), r3.dropWhile Char.isDigit)
    | _ => some (none, r2)
  match precAndRest with
  | none => none
  | some (prec, r4) =>
    if r4 = [] ∨ r4 = ['s'] then
      if align = '=' then none
      else
        let s1 := match prec with | some p => s.take p | none => s
        some (padTo fill align width s1)
    else none

/-- `str.__format__` wrapped into the exception monad. -/
def strFormat (s : Str) (spec : Str) : Except PyError Str :=
  match strFormatCore s spec with
  | some r => .ok r
  | none => .error (.valueError (toL "Invalid format specifier"))

/-! ### `AugmentedStr.__format__` (src lines 51-72) -/

/-- Split a string at every occurrence of `c` (Python `str.split(c)`:
no maxsplit, empty components kept, result never empty). -/
def splitChar (c : Char) : Str → List Str
  | [] => [[]]
  | x :: rest =>
    if x = c then [] :: splitChar c rest
    else
      match splitChar c rest with
      | [] => [[x]]
      | h :: t => (x :: h) :: t

/-- The transform table: every zero-argument method of the source's
values whose stringified result is modelled above — the `str` methods
(`AugmentedStr(result)` stringifying the boolean and list results), the
two `AugmentedStr` methods, and the identity `encode`/`decode` round-trip
(the ASCII convention of this file).  The source resolves these names
dynamically with `getattr(orig, name)` (src line 66). -/
def lookupMethod (name : Str) : Option (Str → Str) :=
  if name = toL "strip" then some pyStrip
  else if name = toL "lstrip" then some pyLstrip
  else if name = toL "rstrip" then some pyRstrip
  else if name = toL "lower" then some pyLower
  else if name = toL "upper" then some pyUpper
  else if name = toL "capitalize" then some pyCapitalize
  else if name = toL "swapcase" then some pySwapcase
  else if name = toL "title" then some pyTitle
  else if name = toL "expandtabs" then some pyExpandtabs
  else if name = toL "encode" then some id
  else if name = toL "decode" then some id
  else if name = toL "isalnum" then some pyIsAlnum
  else if name = toL "isalpha" then some pyIsAlpha
  else if name = toL "isdigit" then some pyIsDigit
  else if name = toL "islower" then some pyIsLower
  else if name = toL "isupper" then some pyIsUpper
  else if name = toL "isspace" then some pyIsSpace
  else if name = toL "istitle" then some pyIsTitle
  else if name = toL "split" then some pySplitRepr
  else if name = toL "rsplit" then some pySplitRepr
  else if name = toL "splitlines" then some pySplitlinesRepr
  else if name = toL "dashed" then some dashed
  else if name = toL "slugify" then some slugify
  else none

/-- The remaining attributes of the source's `AugmentedStr` values (a
Python 2 `str` subclass): methods whose zero-argument call raises
`TypeError` for missing arguments, `format` (whose zero-argument call
re-expands the value as a template — a knot this embedding does not tie),
the object-protocol members, and the class attributes.  `getattr`
resolves all of them, so none can raise `AttributeError`; their call
results are not needed by any theorem below and are uniformly tagged
`typeError` (exact for the argument-requiring methods and the non-callable
attributes). -/
def pyStrOtherAttrs : List Str :=
  [toL "center", toL "count", toL "endswith", toL "find", toL "format",
   toL "index", toL "join", toL "ljust", toL "partition", toL "replace",
   toL "rfind", toL "rindex", toL "rjust", toL "rpartition",
   toL "startswith", toL "translate", toL "zfill",
   toL "__add__", toL "__class__", toL "__contains__", toL "__delattr__",
   toL "__dict__", toL "__doc__", toL "__eq__", toL "__format__",
   toL "__ge__", toL "__getattribute__", toL "__getitem__",
   toL "__getnewargs__", toL "__getslice__", toL "__gt__", toL "__hash__",
   toL "__init__", toL "__le__", toL "__len__", toL "__lt__",
   toL "__mod__", toL "__module__", toL "__mul__", toL "__ne__",
   toL "__new__", toL "__reduce__", toL "__reduce_ex__", toL "__repr__",
   toL "__rmod__", toL "__rmul__", toL "__setattr__", toL "__sizeof__",
   toL "__str__", toL "__subclasshook__", toL "__weakref__",
   toL "_formatter_field_name_split", toL "_formatter_parser"]

/-- `apply_method` (src line 66): apply one named transform.  A name that
is no attribute of the value raises the `AttributeError` of `getattr`; a
resolved attribute outside the transform table is tagged `typeError` (see
`pyStrOtherAttrs`). -/
def applyMethod (s : Str) (name : Str) : Except PyError Str :=
  match lookupMethod name with
  | some f => .ok (f s)
  | none =>
    if name ∈ pyStrOtherAttrs then .error (.typeError name)
    else .error (.attributeError name)

/-- The transform-name chain of a specifier (src lines 54-63): split the
specifier at `|`; with exactly two parts the second is a comma-separated
chain (a chain whose first element is empty means no transforms, per the
`method_names[0] == ''` test on src line 61); with one part — or more than
two, since the source only destructures the two-part case — there are no
transforms. -/
def chainNames (fmt : Str) : List Str :=
  let parts := splitChar '|' fmt
  let methods := if parts.length = 2 then parts.getD 1 [] else []
  let names0 := splitChar ',' methods
  if names0.headD [] = [] then [] else names0

/-- The standard-formatting part of a specifier: everything before the
first `|`. -/
def strfmtOf (fmt : Str) : Str := (splitChar '|' fmt).headD []

/-- `AugmentedStr.__format__` (src lines 51-72): apply the transforms of
the chain left to right, then delegate to `str.__format__`. -/
def augFormat (v : Str) (fmt : Str) : Except PyError Str := do
  let result ← (chainNames fmt).foldlM applyMethod v
  strFormat result (strfmtOf fmt)

/-! ### Template substitution (`str.format` with keyword arguments)

`format_context` calls `value.format(**augmented_context)` (src line 154) and
`format_template` calls `BASE_TEMPLATE.format(**context)` (src line 165).
The scanner below models `str.format` called with keyword arguments only, on
the subset of the replacement-field grammar the program uses: literal text
with `\x7b\x7b`/`\x7d\x7d` escapes and fields `\x7bname\x7d` or
`\x7bname:spec\x7d` (no conversions, attribute access or nested fields;
braces inside a field are ordinary characters for this model).  An empty or
all-digit field name is positional and raises `IndexError` since no
positional arguments are supplied; a keyword name absent from the context
raises `KeyError` with that name; the substituted value is formatted with
`augFormat`, matching the `AugmentedStr` values of `format_context` (and
agreeing with plain `str` formatting on the bar-free specifiers of
`BASE_TEMPLATE`). -/

/-- Scanner mode: in literal text, just after an unprocessed `\x7b` or
`\x7d`, inside a field name, or inside a field format specifier.  The
lookahead for the `\x7b\x7b` and `\x7d\x7d` escapes is carried in the mode so
that the scanner consumes exactly one character per step. -/
inductive FMode : Type where
  | text
  | lbrace
  | rbrace
  | field (acc : Str)
  | fspec (name : Str) (acc : Str)

/-- Substitute one replacement field: positional fields raise `IndexError`,
missing keyword fields raise `KeyError name`, and present fields format
their value with `augFormat`. -/
def substField (ctx : List (Str × Str)) (name : Str) (spec : Str) : Except PyError Str :=
  if name = [] ∨ name.all Char.isDigit then .error .indexError
  else
    match lookup ctx name with
    | none => .error (.keyError name)
    | some v => augFormat v spec

/-- The `str.format` scanner over the template characters. -/
def formatScanGo (ctx : List (Str × Str)) : FMode → Str → Except PyError Str
  | .text, [] => .ok []
  | .text, c :: rest =>
    if c = '{' then formatScanGo ctx .lbrace rest
    else if c = '}' then formatScanGo ctx .rbrace rest
    else do
      let t ← formatScanGo ctx .text rest
      .ok (c :: t)
  | .lbrace, [] => .error (.valueError (toL "Single left brace encountered in format string"))
  | .lbrace, c :: rest =>
    if c = '{' then do
      let t ← formatScanGo ctx .text rest
      .ok ('{' :: t)
    else if c = ':' then formatScanGo ctx (.fspec [] []) rest
    else if c = '}' then do
      let sub ← substField ctx [] []
      let t ← formatScanGo ctx .text rest
      .ok (sub ++ t)
    else formatScanGo ctx (.field [c]) rest
  | .rbrace, [] => .error (.valueError (toL "Single right brace encountered in format string"))
  | .rbrace, c :: rest =>
    if c = '}' then do
      let t ← formatScanGo ctx .text rest
      .ok ('}' :: t)
    else .error (.valueError (toL "Single right brace encountered in format string"))
  | .field _, [] => .error (.valueError (toL "Single left brace encountered in format string"))
  | .field acc, c :: rest =>
    if c = ':' then formatScanGo ctx (.fspec acc []) rest
    else if c = '}' then do
      let sub ← substField ctx acc []
      let t ← formatScanGo ctx .text rest
      .ok (sub ++ t)
    else formatScanGo ctx (.field (acc ++ [c])) rest
  | .fspec _ _, [] => .error (.valueError (toL "Single left brace encountered in format string"))
  | .fspec name acc, c :: rest =>
    if c = '}' then do
      let sub ← substField ctx name acc
      let t ← formatScanGo ctx .text rest
      .ok (sub ++ t)
    else formatScanGo ctx (.fspec name (acc ++ [c])) rest

/-- `template.format(**ctx)`. -/
def formatStr (template : Str) (ctx : List (Str × Str)) : Except PyError Str :=
  formatScanGo ctx .text template

/-- The keys excluded from the directive-formatting pass (src line 134). -/
def nonDirectives : List Str :=
  [toL "dir", toL "basedir", toL "date", toL "number", toL "zeroed_number"]

/-- One step of the `format_context` loop (src lines 151-154): skip excluded
keys, otherwise format the value against the entire original context and
assign it into the result dict. -/
def formatContextStep (ctx : List (Str × Str)) (acc : List (Str × Str))
    (kv : Str × Str) : Except PyError (List (Str × Str)) :=
  if kv.1 ∈ nonDirectives then .ok acc
  else do
    let w ← formatStr kv.2 ctx
    .ok (dictInsert acc kv.1 w)

/-- `format_context` (src lines 128-156): every value, converted to
`AugmentedStr` (the identity on this model's strings), is formatted against
the entire pre-pass context; excluded keys are skipped.  The result holds
only the formatted directives. -/
def formatContext (ctx : List (Str × Str)) : Except PyError (List (Str × Str)) :=
  ctx.foldlM (formatContextStep ctx) []

/-- Monotone injective encoding of a calendar date. -/
def dateCode (y m d : Nat) : Nat := y * 372 + m * 31 + d

/-- Leap-year rule of the Gregorian calendar. -/
def isLeapYear (y : Nat) : Bool :=
  (y % 4 = 0 && y % 100 ≠ 0) || y % 400 = 0

/-- Days in a month, for `strptime` validation. -/
def daysInMonth (y m : Nat) : Nat :=
  if m = 2 then (if isLeapYear y then 29 else 28)
  else if m = 4 ∨ m = 6 ∨ m = 9 ∨ m = 11 then 30
  else 31

/-- Take one or two leading digits (greedily), as `\d\x7b1,2\x7d` followed by a
non-digit delimiter does. -/
def digits2 : Str → Option (Str × Str)
  | [] => none
  | [a] => if a.isDigit then some ([a], []) else none
  | a :: b :: rest =>
    if a.isDigit then
      if b.isDigit then some ([a, b], rest) else some ([a], b :: rest)
    else none

/-- `datetime.strptime(strdate, '%Y/%m/%d')` (src line 341): four year
digits, one or two month and day digits, full-string match, with calendar
validation; a failure is the `ValueError` that `strptime` raises. -/
def strptime (s : Str) : Except PyError Nat :=
  match s with
  | y1 :: y2 :: y3 :: y4 :: '/' :: r1 =>
    if y1.isDigit && y2.isDigit && y3.isDigit && y4.isDigit then
      match digits2 r1 with
      | some (ms, '/' :: r2) =>
        match digits2 r2 with
        | some (ds, []) =>
          let y := natOfDigits [y1, y2, y3, y4]
          let m := natOfDigits ms
          let d := natOfDigits ds
          if 1 ≤ y ∧ 1 ≤ m ∧ m ≤ 12 ∧ 1 ≤ d ∧ d ≤ daysInMonth y m then
            .ok (dateCode y m d)
          else .error (.valueError (toL "time data does not match format"))
        | _ => .error (.valueError (toL "time data does not match format"))
      | _ => .error (.valueError (toL "time data does not match format"))
    else .error (.valueError (toL "time data does not match format"))
  | _ => .error (.valueError (toL "time data does not match format"))

/-- Lexicographic order on the heap entries `(today - date, value)`, with
Python string comparison (codepoint lexicographic) on the second component. -/
def strLtBool : Str → Str → Bool
  | [], [] => false
  | [], _ :: _ => true
  | _ :: _, [] => false
  | a :: as_, b :: bs => if a < b then true else if a = b then strLtBool as_ bs else false

/-- Python tuple comparison on `(Nat, str)` pairs. -/
def tupLt (a b : Nat × Str) : Bool :=
  if a.1 < b.1 then true else if a.1 = b.1 then strLtBool a.2 b.2 else false

/-- One loop iteration of `parse_special_key` (src lines 340-346): parse the
date, skip entries dated after today, and record `(today - date, value)`. -/
def specialStep (today : Nat) (acc : List (Nat × Str)) (e : Str × Str) :
    Except PyError (List (Nat × Str)) := do
  let d ← strptime e.1
  if today < d then pure acc else pure (acc ++ [(today - d, e.2)])

/-- `parse_special_key` (src lines 326-353): build the heap of
`(today - date, value)` pairs for the entries not dated in the future, fail
with `ValueError` when none qualify, and return the value of `heap[0]` — the
minimum under tuple comparison, hence the entry with the most recent
eligible date. -/
def parseSpecialKey (today : Nat) (al : List (Str × Str)) : Except PyError Str := do
  let heap ← al.foldlM (specialStep today) []
  match heap with
  | [] => .error (.valueError (toL "No valid values"))
  | h :: t => .ok (t.foldl (fun best x => if tupLt x best then x else best) h).2

/-- The regex of `parse_keys` (src line 304), as a deterministic matcher:
an optional `>` after the opening parenthesis, the captured
`\d\x7b4\x7d/\d\x7b1,2\x7d/\d\x7b1,2\x7d` date, the closing parenthesis, at
least one whitespace character, and the `(.*)` capture (greedy up to a
newline).  Returns `(date, actual_key)` on a match. -/
def matchAfterParen (r : Str) : Option (Str × Str) :=
  match r with
    | y1 :: y2 :: y3 :: y4 :: '/' :: r1 =>
      if y1.isDigit && y2.isDigit && y3.isDigit && y4.isDigit then
        match digits2 r1 with
        | some (ms, '/' :: r2) =>
          match digits2 r2 with
          | some (ds, ')' :: r3) =>
            match r3 with
            | w :: r4 =>
              if isPySpace w then
                some ([y1, y2, y3, y4, '/'] ++ ms ++ ['/'] ++ ds,
                      (r4.dropWhile isPySpace).takeWhile (fun c => c ≠ '\n'))
              else none
            | [] => none
          | _ => none
        | _ => none
      else none
    | _ => none

/-- The full matcher: `re.match` of the pattern against a raw key.  The
optional unanchored `>` after the opening parenthesis is consumed when
present (consuming it is forced, since what follows must be a digit). -/
def matchSpecial (key : Str) : Option (Str × Str) :=
  match key with
  | '(' :: r0 =>
    matchAfterParen (if r0.head? = some '>' then r0.tail else r0)
  | _ => none

/-- `special_keys[actual_key].append(entry)` on a `defaultdict(list)`
(src line 316). -/
def groupAdd (g : List (Str × List (Str × Str))) (k : Str) (e : Str × Str) :
    List (Str × List (Str × Str)) :=
  match g with
  | [] => [(k, [e])]
  | (k', l) :: rest =>
    if k' = k then (k', l ++ [e]) :: rest else (k', l) :: groupAdd rest k e

/-- `parse_special_keys` (src lines 322-324): resolve every group. -/
def parseSpecialKeys (today : Nat) (g : List (Str × List (Str × Str))) :
    Except PyError (List (Str × Str)) :=
  g.mapM (fun kl => do
    let v ← parseSpecialKey today kl.2
    pure (kl.1, v))

/-- `parse_keys` (src lines 294-319): partition the raw key/value pairs into
normal keys and date-prefixed groups, resolve the groups for today, and
merge the resolutions over the normal keys. -/
def parseKeys (today : Nat) (options : List (Str × Str)) :
    Except PyError (List (Str × Str)) :=
  let part := options.foldl
    (fun (acc : List (Str × Str) × List (Str × List (Str × Str))) kv =>
      match matchSpecial kv.1 with
      | none => (dictInsert acc.1 kv.1 kv.2, acc.2)
      | some (strdate, actualKey) => (acc.1, groupAdd acc.2 actualKey (strdate, kv.2)))
    ([], [])
  do
    let sp ← parseSpecialKeys today part.2
    pure (dictUpdate part.1 sp)

/-! ### Configuration merging (src lines 33-36, 111-125, 224-291) -/

/-- `os.path.join(basedir, d)` for the relative-path case of
`parse_category`. -/
def pathJoin (basedir d : Str) : Str :=
  if basedir = [] then d
  else if basedir.getLast? = some '/' then basedir ++ d
  else basedir ++ '/' :: d

/-- `parse_category` (src lines 266-291): resolve the raw category options
with `parse_keys`, then fix up `dir`: a relative path is joined onto the
base directory, an absolute one kept, and a missing one replaced by the
base directory.  `basedir` is the (asserted-present) base directory of the
initial configuration. -/
def parseCategory (today : Nat) (basedir : Str) (options : List (Str × Str)) :
    Except PyError (List (Str × Str)) := do
  let additions ← parseKeys today options
  match lookup additions (toL "dir") with
  | some dv =>
    if dv.head? = some '/' then pure additions
    else pure (dictInsert additions (toL "dir") (pathJoin basedir dv))
  | none => pure (dictInsert additions (toL "dir") basedir)

/-- `DEFAULTS` (src lines 33-36); the resolved home directory is a
parameter. -/
def DEFAULTS (home : Str) : List (Str × Str) :=
  [(toL "basedir", home), (toL "title", toL "{number} — {subject}")]

/-- `global_directives` (src lines 120-125); the formatted current date is a
parameter. -/
def globalDirectives (todayStr : Str) : List (Str × Str) :=
  [(toL "date", todayStr), (toL "extra_content", [])]

/-- A parsed configuration file: section name to key/value items, as
`ConfigParser` exposes it. -/
abbrev Config : Type := List (Str × List (Str × Str))

/-- `parser.items(section)`: the section items, or the `NoSectionError`
naming the missing section. -/
def sectionItems (cfg : Config) (s : Str) : Except PyError (List (Str × Str)) :=
  match lookup cfg s with
  | some items => .ok items
  | none => .error (.noSectionError s)

/-- The initial configuration of `parse_config` (src lines 239-242):
built-in defaults, updated by the `__general__` section, updated by the
computed global directives. -/
def initialConfig (home todayStr : Str) (general : List (Str × Str)) :
    List (Str × Str) :=
  dictUpdate (dictUpdate (dictUpdate [] (DEFAULTS home)) general)
    (globalDirectives todayStr)

/-- `parse_config` (src lines 224-263).  `home` is the expanded `~`,
`todayStr` the formatted current date, `today` the current date's code; the
configuration file is assumed readable (file existence is outside the
model).  Faithful to the source, the `has_section` test on src lines 251-253
only constructs a `ValueError` without raising it, so a missing category
section surfaces as the `NoSectionError` of `parser.items(category)`. -/
def parseConfig (home todayStr : Str) (today : Nat) (cfg : Config)
    (category : Option Str) : Except PyError (List (Str × Str)) := do
  let general ← sectionItems cfg (toL "__general__")
  let initial := initialConfig home todayStr general
  let cOpt := match category with
    | some c => if c = [] then lookup initial (toL "default") else some c
    | none => lookup initial (toL "default")
  match cOpt with
  | none => .error (.valueError (toL "No category given and no default in config"))
  | some c =>
    if c = [] then
      .error (.valueError (toL "No category given and no default in config"))
    else do
      -- src lines 251-253: `ValueError(...)` is constructed but not raised;
      -- the statement has no effect and is therefore not modelled.
      let options ← sectionItems cfg c
      match lookup initial (toL "basedir") with
      | none => .error .assertionError
      | some basedir => do
        let additions ← parseCategory today basedir options
        let merged := dictUpdate initial additions
        match lookup merged (toL "subject") with
        | some s => pure (dictInsert merged (toL "subject") s)
        | none => pure (dictInsert merged (toL "subject") c)

/-! ### Persisted sequence counter (src lines 357-392) -/

/-- The pickled counter store: subject name to its persisted count.  The
per-subject sub-dicts of the pickle only ever hold the `number` key (the
`zeroed_number` entry is added after the dump on src line 390, and the same
dict object is what was dumped), so a store is modelled as a map from
subject to count. -/
abbrev PStore : Type := List (Str × Nat)

/-- `context_from_current_dir` (src lines 357-392), with the file system
explicit: `store` is the pickle's contents, or `none` when
`.inkshed.pickle` does not exist.  Returns the store as written back (the
dump happens before the returned additions are used) together with the
post-increment `number` and the derived `zeroed_number = number - 1`. -/
def contextFromCurrentDir (store : Option PStore) (subject : Str) :
    PStore × Nat × Nat :=
  let config := match store with
    | none => [(subject, 0)]
    | some s => s
  let old := (lookup config subject).getD 0
  let number := old + 1
  let written := dictInsert config subject number
  (written, number, number - 1)

/-! ### Scoped directory change (src lines 183-194) -/

/-- How the body of a `with cd(...)` block exits. -/
inductive BodyOutcome : Type where
  /-- The block ran to completion. -/
  | ok
  /-- The block raised an exception, which propagates through the `yield`
  of the generator-based context manager. -/
  | exn

/-- The process working directory after leaving `with cd(directory, stay)`
(src lines 183-194).  On entry the generator records `original_dir` and
changes into `directory`; after a normal exit it changes back unless `stay`
is set.  The source has no `try`/`finally` around the `yield`, so when the
body raises, the code after the `yield` never runs and the working
directory is left as `directory`. -/
def cdFinalCwd (originalDir directory : Str) (stay : Bool)
    (outcome : BodyOutcome) : Str :=
  match outcome with
  | .ok => if stay then directory else originalDir
  | .exn => directory

/-! ### `main` (src lines 197-216, 419-439) -/

instance {ε α : Type} [DecidableEq ε] [DecidableEq α] : DecidableEq (Except ε α) :=
  fun x y =>
    match x, y with
    | .ok a, .ok b =>
      if h : a = b then .isTrue (by rw [h]) else .isFalse (fun hc => by cases hc; exact h rfl)
    | .error a, .error b =>
      if h : a = b then .isTrue (by rw [h]) else .isFalse (fun hc => by cases hc; exact h rfl)
    | .ok _, .error _ => .isFalse (fun hc => by cases hc)
    | .error _, .ok _ => .isFalse (fun hc => by cases hc)

theorem lookup_dictInsert_self {α : Type} (m : List (Str × α)) (k : Str) (v : α) :
    lookup (dictInsert m k v) k = some v := by
  induction m with
  | nil => simp [dictInsert, lookup]
  | cons kv rest ih =>
    obtain ⟨k', v'⟩ := kv
    by_cases h : k' = k <;> simp [dictInsert, lookup, h, ih]

theorem lookup_dictInsert_ne {α : Type} (m : List (Str × α)) (k k' : Str) (v : α)
    (h : k' ≠ k) : lookup (dictInsert m k v) k' = lookup m k' := by
  induction m with
  | nil =>
    simp only [dictInsert, lookup]
    rw [if_neg (fun hc => h hc.symm)]
  | cons kv rest ih =>
    obtain ⟨k0, v0⟩ := kv
    simp only [dictInsert]
    by_cases h0 : k0 = k
    · rw [if_pos h0]
      simp only [lookup]
      subst h0
      rw [if_neg (fun hc => h hc.symm), if_neg (fun hc => h hc.symm)]
    · rw [if_neg h0]
      simp only [lookup]
      by_cases h1 : k0 = k'
      · rw [if_pos h1, if_pos h1]
      · rw [if_neg h1, if_neg h1, ih]

theorem lookup_eq_none_of_not_mem_keys {α : Type} (m : List (Str × α)) (k : Str)
    (h : k ∉ m.map Prod.fst) : lookup m k = none := by
  induction m with
  | nil => rfl
  | cons kv rest ih =>
    obtain ⟨k0, v0⟩ := kv
    simp only [List.map_cons, List.mem_cons] at h
    push_neg at h
    simp only [lookup]
    rw [if_neg (fun hc => h.1 hc.symm)]
    exact ih h.2

/-- Last-occurrence lookup; agrees with `lookup` on duplicate-free keys and
is what repeated dict assignment realizes. -/
def lookupLast {α : Type} (m : List (Str × α)) (k : Str) : Option α :=
  match m with
  | [] => none
  | (k', v) :: rest =>
    match lookupLast rest k with
    | some w => some w
    | none => if k' = k then some v else none

/-- First-some choice on options, for stating the update lemma. -/
def orElseO {α : Type} (a b : Option α) : Option α :=
  match a with
  | some x => some x
  | none => b

theorem lookupLast_eq_lookup {α : Type} (m : List (Str × α)) (k : Str)
    (h : NoDupKeys m) : lookupLast m k = lookup m k := by
  induction m with
  | nil => rfl
  | cons kv rest ih =>
    obtain ⟨k0, v0⟩ := kv
    unfold NoDupKeys at h
    simp only [List.map_cons, List.nodup_cons] at h
    obtain ⟨hnot, hnd⟩ := h
    have ihr : lookupLast rest k = lookup rest k := ih hnd
    by_cases hk : k0 = k
    · subst hk
      have hnone : lookup rest k0 = none := lookup_eq_none_of_not_mem_keys rest k0 hnot
      simp [lookupLast, lookup, ihr, hnone]
    · cases hl : lookup rest k with
      | some w => simp [lookupLast, lookup, ihr, hl, hk]
      | none => simp [lookupLast, lookup, ihr, hl, hk]

theorem lookup_dictUpdate {α : Type} (a b : List (Str × α)) (k : Str) :
    lookup (dictUpdate a b) k = orElseO (lookupLast b k) (lookup a k) := by
  induction b generalizing a with
  | nil => simp [dictUpdate, lookupLast, orElseO]
  | cons kv rest ih =>
    obtain ⟨k0, v0⟩ := kv
    show lookup (dictUpdate (dictInsert a k0 v0) rest) k = _
    rw [ih]
    by_cases hk : k0 = k
    · subst hk
      cases hrest : lookupLast rest k0 with
      | some w => simp [lookupLast, hrest, orElseO]
      | none => simp [lookupLast, hrest, orElseO, lookup_dictInsert_self]
    · cases hrest : lookupLast rest k with
      | some w => simp [lookupLast, hrest, orElseO]
      | none =>
        simp only [lookupLast, hrest, orElseO]
        rw [if_neg hk, lookup_dictInsert_ne a k0 k v0 (fun hc => hk hc.symm)]

/-! ### Claim theorems -/

/-- C7: the claim says `slugify` is idempotent for every string.  It is not:
`splitter.split(depostrophed, re.UNICODE)` on src line 105 passes the flag
constant `re.UNICODE` (= 32) in the `maxsplit` position, so at most 32
splits are performed and a string with more than 32 separator characters
keeps the surplus separators in its final component.  Re-slugifying then
splits those leftover separators.  At the input of forty `!` followed by
`a`, `slugify` returns `!!!!!!!!a` (eight leftover separators) while a
second application returns `a`. -/
theorem slugify_not_idempotent :
    slugify (slugify (List.replicate 40 '!' ++ toL "a")) ≠
      slugify (List.replicate 40 '!' ++ toL "a") := by decide

/-- C4: the scoped directory change does not restore the working directory
on the exception path.  The generator-based context manager `cd`
(src lines 183-194) has no `try`/`finally` around its `yield`, so an
exception raised in the body skips the restoring `os.chdir(original_dir)`:
with `stay=False` the directory is restored after a normal exit but is left
at the target directory after an exception, contradicting the claim that
every exit path restores it. -/
theorem cd_exception_not_restored :
    cdFinalCwd (toL "/original") (toL "/target") false .exn = toL "/target" ∧
    cdFinalCwd (toL "/original") (toL "/target") false .ok = toL "/original" ∧
    toL "/target" ≠ toL "/original" := by decide

/-- C1: the persisted sequence counter.  From an absent store, three
successive invocations for subject `Skim` return `(number, zeroed_number)`
pairs `(1,0)`, `(2,1)`, `(3,2)`, and after each invocation the store as
written back maps the subject to the post-increment count; in general every
invocation returns `number = zeroed_number + 1` and the written-back store
(produced before the return value is available to callers) maps the subject
to `number`. -/
theorem counter_sequence :
    contextFromCurrentDir none (toL "Skim") = ([(toL "Skim", 1)], 1, 0) ∧
    contextFromCurrentDir (some [(toL "Skim", 1)]) (toL "Skim")
      = ([(toL "Skim", 2)], 2, 1) ∧
    contextFromCurrentDir (some [(toL "Skim", 2)]) (toL "Skim")
      = ([(toL "Skim", 3)], 3, 2) ∧
    ∀ (store : Option PStore) (subject : Str),
      (contextFromCurrentDir store subject).2.1
        = (contextFromCurrentDir store subject).2.2 + 1 ∧
      lookup (contextFromCurrentDir store subject).1 subject
        = some (contextFromCurrentDir store subject).2.1 := by
  refine ⟨by decide, by decide, by decide, ?_⟩
  intro store subject
  unfold contextFromCurrentDir
  simp [lookup_dictInsert_self]


/-- C10: the optional `>` marker inside the parentheses of a
date-conditioned raw key carries no meaning.  The regex on src line 304
makes the `>` optional and leaves it outside the capturing groups, so for
any suffix not itself starting with `>` (in particular any date, which
starts with a digit), `(>...` and `(...` match to the same
`(date, actual_key)` pair; when they match (`hmatch`), `parse_keys`
therefore files both forms under the same logical key with the same date
and value. -/
theorem gt_marker_no_semantics (s v sd ak : Str) (today : Nat)
    (h : s.head? ≠ some '>')
    (hmatch : matchSpecial ('(' :: s) = some (sd, ak)) :
    matchSpecial ('(' :: '>' :: s) = matchSpecial ('(' :: s) ∧
    ∀ options, parseKeys today (('(' :: '>' :: s, v) :: options)
      = parseKeys today (('(' :: s, v) :: options) := by
  have hm : matchSpecial ('(' :: '>' :: s) = matchSpecial ('(' :: s) := by
    simp only [matchSpecial, List.head?_cons, List.tail_cons]
    rw [if_pos trivial, if_neg h]
  refine ⟨hm, fun options => ?_⟩
  simp only [parseKeys, List.foldl_cons, hm, hmatch]

/-- C10 witness: the two raw-key spellings of the date `2014/9/14` with
logical key `subject` are parsed identically. -/
theorem gt_marker_no_semantics_witness :
    matchSpecial (toL "(>2014/9/14) subject") = matchSpecial (toL "(2014/9/14) subject") ∧
    ∀ options, parseKeys 0 ((toL "(>2014/9/14) subject", toL "v") :: options)
      = parseKeys 0 ((toL "(2014/9/14) subject", toL "v") :: options) :=
  gt_marker_no_semantics (toL "2014/9/14) subject") (toL "v")
    (toL "2014/9/14") (toL "subject") 0 (by decide) (by decide)

/-- C3: a requested category that names no section of the configuration
file makes configuration parsing fail with an error naming the category,
and no merged context is returned.  In the source the guard on src lines
251-253 constructs a `ValueError` naming the category but omits `raise`,
so the failure that actually surfaces is `ConfigParser.NoSectionError` from
`parser.items(category)` — also a configuration error carrying the category
name (the spec's `ConfigError` taxonomy names the script's configuration
failures abstractly). -/
theorem missing_category_error (home todayStr : Str) (today : Nat)
    (cfg : Config) (general : List (Str × Str)) (c : Str)
    (hgen : lookup cfg (toL "__general__") = some general)
    (hc : c ≠ []) (hmiss : lookup cfg c = none) :
    parseConfig home todayStr today cfg (some c) = .error (.noSectionError c) := by
  simp [parseConfig, sectionItems, hgen, hmiss, hc, bind, Except.bind]

/-- C3 witness: a configuration with only a `__general__` section rejects
the category `work` with the error naming `work`. -/
theorem missing_category_error_witness :
    parseConfig (toL "/home/u") (toL "January 1, 20") 0
      [(toL "__general__", [])] (some (toL "work"))
      = .error (.noSectionError (toL "work")) :=
  missing_category_error (toL "/home/u") (toL "January 1, 20") 0
    [(toL "__general__", [])] [] (toL "work") (by decide) (by decide) (by decide)

/-! ### Lemmas about the `format_context` pass -/

theorem formatContextGo_preserve (ctx : List (Str × Str)) :
    ∀ (rest acc out : List (Str × Str)) (k : Str),
      rest.foldlM (formatContextStep ctx) acc = .ok out →
      (∀ kv ∈ rest, kv.1 ≠ k) → lookup out k = lookup acc k := by
  intro rest
  induction rest with
  | nil =>
    intro acc out k hfold _
    simp only [List.foldlM_nil] at hfold
    cases hfold
    rfl
  | cons x rest ih =>
    intro acc out k hfold hne
    simp only [List.foldlM_cons] at hfold
    by_cases hx : x.1 ∈ nonDirectives
    · rw [show formatContextStep ctx acc x = .ok acc from by
        simp [formatContextStep, hx]] at hfold
      exact ih acc out k hfold (fun kv hkv => hne kv (List.mem_cons_of_mem x hkv))
    · cases hfs : formatStr x.2 ctx with
      | error e =>
        rw [show formatContextStep ctx acc x = .error e from by
          simp [formatContextStep, hx, hfs, bind, Except.bind]] at hfold
        cases hfold
      | ok w =>
        rw [show formatContextStep ctx acc x = .ok (dictInsert acc x.1 w) from by
          simp [formatContextStep, hx, hfs, bind, Except.bind]] at hfold
        rw [ih (dictInsert acc x.1 w) out k hfold
          (fun kv hkv => hne kv (List.mem_cons_of_mem x hkv))]
        exact lookup_dictInsert_ne acc x.1 k w
          (fun hc => hne x (List.mem_cons_self x rest) hc.symm)

theorem formatContextGo_lookup (ctx : List (Str × Str)) :
    ∀ (rest acc out : List (Str × Str)),
      rest.foldlM (formatContextStep ctx) acc = .ok out →
      NoDupKeys rest →
      ∀ k v, (k, v) ∈ rest → k ∉ nonDirectives →
      ∃ w, formatStr v ctx = .ok w ∧ lookup out k = some w := by
  intro rest
  induction rest with
  | nil =>
    intro acc out hfold hnd k v hmem
    cases hmem
  | cons x rest ih =>
    intro acc out hfold hnd k v hmem hk
    unfold NoDupKeys at hnd
    simp only [List.map_cons, List.nodup_cons] at hnd
    obtain ⟨hx_not, hnd'⟩ := hnd
    simp only [List.foldlM_cons] at hfold
    rcases List.mem_cons.mp hmem with heq | hmem'
    · -- the entry is the head: it is formatted against the original context
      have hx1 : x.1 = k := by rw [← heq]
      have hx2 : x.2 = v := by rw [← heq]
      have hxnd : x.1 ∉ nonDirectives := by rw [hx1]; exact hk
      cases hfs : formatStr x.2 ctx with
      | error e =>
        rw [show formatContextStep ctx acc x = .error e from by
          simp [formatContextStep, hxnd, hfs, bind, Except.bind]] at hfold
        cases hfold
      | ok w =>
        rw [show formatContextStep ctx acc x = .ok (dictInsert acc x.1 w) from by
          simp [formatContextStep, hxnd, hfs, bind, Except.bind]] at hfold
        refine ⟨w, by rw [← hx2]; exact hfs, ?_⟩
        rw [formatContextGo_preserve ctx rest (dictInsert acc x.1 w) out k hfold ?_]
        · rw [← hx1]; exact lookup_dictInsert_self acc x.1 w
        · intro kv hkv hc
          exact hx_not (by rw [hx1, ← hc]; exact List.mem_map_of_mem Prod.fst hkv)
    · -- the entry is in the tail
      by_cases hx : x.1 ∈ nonDirectives
      · rw [show formatContextStep ctx acc x = .ok acc from by
          simp [formatContextStep, hx]] at hfold
        exact ih acc out hfold hnd' k v hmem' hk
      · cases hfs : formatStr x.2 ctx with
        | error e =>
          rw [show formatContextStep ctx acc x = .error e from by
            simp [formatContextStep, hx, hfs, bind, Except.bind]] at hfold
          cases hfold
        | ok w =>
          rw [show formatContextStep ctx acc x = .ok (dictInsert acc x.1 w) from by
            simp [formatContextStep, hx, hfs, bind, Except.bind]] at hfold
          exact ih (dictInsert acc x.1 w) out hfold hnd' k v hmem' hk

/-- C5: the directive-formatting pass is single-pass, not fixed-point.
Every non-excluded directive of the context is formatted exactly once,
against the pre-pass (unformatted) context values (`formatStr v ctx` with
`v` the original value and `ctx` the original context); consequently, in a
chain where directive `a` references `\x7bb\x7d`, `b` references `\x7bc\x7d`
and `c` is `x`, the formatted `a` is the literal text `\x7bc\x7d` of `b`'s
reference, not `c`'s value `x`. -/
theorem format_context_single_pass :
    (∀ (ctx out : List (Str × Str)) (k v : Str), NoDupKeys ctx → (k, v) ∈ ctx →
       k ∉ nonDirectives → formatContext ctx = .ok out →
       ∃ w, formatStr v ctx = .ok w ∧ lookup out k = some w) ∧
    (formatContext [(toL "a", toL "{b}"), (toL "b", toL "{c}"), (toL "c", toL "x")]
       = .ok [(toL "a", toL "{c}"), (toL "b", toL "x"), (toL "c", toL "x")] ∧
     toL "{c}" ≠ toL "x") := by
  refine ⟨?_, by decide, by decide⟩
  intro ctx out k v hnd hmem hk hfold
  exact formatContextGo_lookup ctx ctx [] out hfold hnd k v hmem hk

/-- C5 witness: the single-pass property applied to the concrete
three-directive chain, at the first directive. -/
theorem format_context_single_pass_witness :
    ∃ w, formatStr (toL "{b}") [(toL "a", toL "{b}"), (toL "b", toL "{c}"), (toL "c", toL "x")]
        = .ok w ∧
      lookup [(toL "a", toL "{c}"), (toL "b", toL "x"), (toL "c", toL "x")] (toL "a") = some w :=
  format_context_single_pass.1
    [(toL "a", toL "{b}"), (toL "b", toL "{c}"), (toL "c", toL "x")]
    [(toL "a", toL "{c}"), (toL "b", toL "x"), (toL "c", toL "x")]
    (toL "a") (toL "{b}") (by decide) (by decide) (by decide) (by decide)

/-! ### Lemmas about the date-resolution heap -/

/-- The running-minimum step used by `parseSpecialKey` to model `heap[0]`. -/
def minTup (best x : Nat × Str) : Nat × Str :=
  if tupLt x best then x else best

theorem tupLt_true_fst_le {x h : Nat × Str} (hlt : tupLt x h = true) : x.1 ≤ h.1 := by
  unfold tupLt at hlt
  split at hlt
  · next h1 => omega
  · next h1 =>
    split at hlt
    · next h2 => omega
    · cases hlt

theorem tupLt_false_fst_le {x h : Nat × Str} (hlt : tupLt x h = false) : h.1 ≤ x.1 := by
  unfold tupLt at hlt
  split at hlt
  · cases hlt
  · next h1 => omega

theorem minTup_fst_le_left (h x : Nat × Str) : (minTup h x).1 ≤ h.1 := by
  unfold minTup
  by_cases hlt : tupLt x h = true
  · rw [if_pos hlt]
    exact tupLt_true_fst_le hlt
  · rw [if_neg hlt]

theorem minTup_fst_le_right (h x : Nat × Str) : (minTup h x).1 ≤ x.1 := by
  unfold minTup
  by_cases hlt : tupLt x h = true
  · rw [if_pos hlt]
  · rw [if_neg hlt]
    rw [Bool.not_eq_true] at hlt
    exact tupLt_false_fst_le hlt

theorem foldl_minTup_mem (t : List (Nat × Str)) (h : Nat × Str) :
    t.foldl minTup h ∈ h :: t := by
  induction t generalizing h with
  | nil => simp
  | cons x t ih =>
    simp only [List.foldl_cons]
    have hrec := ih (minTup h x)
    have hmx : minTup h x = x ∨ minTup h x = h := by
      unfold minTup
      split
      · exact Or.inl rfl
      · exact Or.inr rfl
    rcases List.mem_cons.mp hrec with heq | hmem
    · rw [heq]
      rcases hmx with h1 | h1
      · rw [h1]
        exact List.mem_cons_of_mem h (List.mem_cons_self x t)
      · rw [h1]
        exact List.mem_cons_self h (x :: t)
    · exact List.mem_cons_of_mem h (List.mem_cons_of_mem x hmem)

theorem foldl_minTup_le (t : List (Nat × Str)) :
    ∀ (h y : Nat × Str), y ∈ h :: t → (t.foldl minTup h).1 ≤ y.1 := by
  induction t with
  | nil =>
    intro h y hy
    rcases List.mem_cons.mp hy with heq | hmem
    · subst heq
      simp
    · cases hmem
  | cons x t ih =>
    intro h y hy
    simp only [List.foldl_cons]
    rcases List.mem_cons.mp hy with heq | hmem
    · subst heq
      calc (t.foldl minTup (minTup y x)).1
          ≤ (minTup y x).1 := ih (minTup y x) (minTup y x) (List.mem_cons_self _ _)
        _ ≤ y.1 := minTup_fst_le_left y x
    · rcases List.mem_cons.mp hmem with heq2 | hmem2
      · subst heq2
        calc (t.foldl minTup (minTup h y)).1
            ≤ (minTup h y).1 := ih (minTup h y) (minTup h y) (List.mem_cons_self _ _)
          _ ≤ y.1 := minTup_fst_le_right h y
      · exact ih (minTup h x) y (List.mem_cons_of_mem _ hmem2)

/-- Soundness of the eligibility loop: every heap entry that is not from
the accumulator comes from an entry of the association list whose parsed
date is not in the future, with the delta `today - date`. -/
theorem specialFold_mem (today : Nat) :
    ∀ (al : List (Str × Str)) (acc out : List (Nat × Str)),
      al.foldlM (specialStep today) acc = .ok out →
      ∀ x ∈ out, x ∈ acc ∨
        ∃ sd d, (sd, x.2) ∈ al ∧ strptime sd = .ok d ∧ d ≤ today ∧ x.1 = today - d := by
  intro al
  induction al with
  | nil =>
    intro acc out hfold x hx
    simp only [List.foldlM_nil] at hfold
    cases hfold
    exact Or.inl hx
  | cons e al ih =>
    intro acc out hfold x hx
    simp only [List.foldlM_cons] at hfold
    cases hsp : strptime e.1 with
    | error err =>
      rw [show specialStep today acc e = .error err from by
        simp [specialStep, hsp, bind, Except.bind]] at hfold
      cases hfold
    | ok d =>
      by_cases hf : today < d
      · rw [show specialStep today acc e = .ok acc from by
          simp [specialStep, hsp, hf, bind, Except.bind, pure, Except.pure]] at hfold
        rcases ih acc out hfold x hx with h1 | ⟨sd, d', hmem, hpt, hle, hx1⟩
        · exact Or.inl h1
        · exact Or.inr ⟨sd, d', List.mem_cons_of_mem e hmem, hpt, hle, hx1⟩
      · rw [show specialStep today acc e = .ok (acc ++ [(today - d, e.2)]) from by
          simp [specialStep, hsp, hf, bind, Except.bind, pure, Except.pure]] at hfold
        rcases ih _ out hfold x hx with h1 | ⟨sd, d', hmem, hpt, hle, hx1⟩
        · rcases List.mem_append.mp h1 with h2 | h2
          · exact Or.inl h2
          · simp only [List.mem_singleton] at h2
            subst h2
            exact Or.inr ⟨e.1, d, List.mem_cons_self e al, hsp, by omega, rfl⟩
        · exact Or.inr ⟨sd, d', List.mem_cons_of_mem e hmem, hpt, hle, hx1⟩

/-- Completeness of the eligibility loop: the accumulator is preserved and
every eligible entry of the association list lands in the heap. -/
theorem specialFold_complete (today : Nat) :
    ∀ (al : List (Str × Str)) (acc out : List (Nat × Str)),
      al.foldlM (specialStep today) acc = .ok out →
      (∀ x ∈ acc, x ∈ out) ∧
      ∀ sd v d, (sd, v) ∈ al → strptime sd = .ok d → d ≤ today →
        (today - d, v) ∈ out := by
  intro al
  induction al with
  | nil =>
    intro acc out hfold
    simp only [List.foldlM_nil] at hfold
    cases hfold
    exact ⟨fun x hx => hx, fun sd v d hmem => by cases hmem⟩
  | cons e al ih =>
    intro acc out hfold
    simp only [List.foldlM_cons] at hfold
    cases hsp : strptime e.1 with
    | error err =>
      rw [show specialStep today acc e = .error err from by
        simp [specialStep, hsp, bind, Except.bind]] at hfold
      cases hfold
    | ok d =>
      by_cases hf : today < d
      · rw [show specialStep today acc e = .ok acc from by
          simp [specialStep, hsp, hf, bind, Except.bind, pure, Except.pure]] at hfold
        obtain ⟨hacc, hel⟩ := ih acc out hfold
        refine ⟨hacc, fun sd v d' hmem hpt hle => ?_⟩
        rcases List.mem_cons.mp hmem with heq | hmem'
        · -- the head entry cannot be this one: its date is in the future
          exfalso
          cases heq
          have hsd : strptime sd = Except.ok d := hsp
          rw [hsd] at hpt
          cases hpt
          omega
        · exact hel sd v d' hmem' hpt hle
      · rw [show specialStep today acc e = .ok (acc ++ [(today - d, e.2)]) from by
          simp [specialStep, hsp, hf, bind, Except.bind, pure, Except.pure]] at hfold
        obtain ⟨hacc, hel⟩ := ih _ out hfold
        refine ⟨fun x hx => hacc x (List.mem_append.mpr (Or.inl hx)), ?_⟩
        intro sd v d' hmem hpt hle
        rcases List.mem_cons.mp hmem with heq | hmem'
        · cases heq
          have hsd : strptime sd = Except.ok d := hsp
          rw [hsd] at hpt
          cases hpt
          exact hacc _ (List.mem_append.mpr (Or.inr (List.mem_singleton.mpr rfl)))
        · exact hel sd v d' hmem' hpt hle

/-- C2: date-conditioned resolution.  Whenever `parse_special_key` returns
a value for a group of `(date, value)` entries, that value belongs to an
entry whose date is not after today and whose date is maximal among all
such entries — an entry dated in the future is never selected.  In
particular, the spec's example — entries dated 2034/12/23, 1970/7/14 and
2014/9/14 evaluated as of 2014/9/15 — resolves to `current`. -/
theorem date_resolution (today : Nat) (al : List (Str × Str)) (v : Str)
    (h : parseSpecialKey today al = .ok v) :
    (∃ sd d, (sd, v) ∈ al ∧ strptime sd = .ok d ∧ d ≤ today ∧
       ∀ sd' v' d', (sd', v') ∈ al → strptime sd' = .ok d' → d' ≤ today → d' ≤ d) ∧
    parseSpecialKey (dateCode 2014 9 15)
      [(toL "2034/12/23", toL "future"), (toL "1970/7/14", toL "past"),
       (toL "2014/9/14", toL "current")] = .ok (toL "current") := by
  refine ⟨?_, by decide⟩
  unfold parseSpecialKey at h
  cases hfold : al.foldlM (specialStep today) [] with
  | error e =>
    rw [hfold] at h
    cases h
  | ok heap =>
    rw [hfold] at h
    cases heap with
    | nil => cases h
    | cons h0 t =>
      simp only [bind, Except.bind, pure, Except.pure, Except.ok.injEq] at h
      have hmin_mem : t.foldl minTup h0 ∈ h0 :: t := foldl_minTup_mem t h0
      have hmin_src := specialFold_mem today al [] (h0 :: t) hfold
        (t.foldl minTup h0) hmin_mem
      rcases hmin_src with habs | ⟨sd, d, hmem, hpt, hle, hfst⟩
      · cases habs
      · refine ⟨sd, d, ?_, hpt, hle, ?_⟩
        · rw [← h]
          exact hmem
        · intro sd' v' d' hmem' hpt' hle'
          have hin : (today - d', v') ∈ h0 :: t :=
            (specialFold_complete today al [] (h0 :: t) hfold).2 sd' v' d' hmem' hpt' hle'
          have hb := foldl_minTup_le t h0 (today - d', v') hin
          rw [hfst] at hb
          omega

/-- C2 witness: the general resolution property applied to the spec's
example group as of 2014/9/15. -/
theorem date_resolution_witness :
    ∃ sd d, (sd, toL "current") ∈
        [(toL "2034/12/23", toL "future"), (toL "1970/7/14", toL "past"),
         (toL "2014/9/14", toL "current")] ∧
      strptime sd = .ok d ∧ d ≤ dateCode 2014 9 15 ∧
      ∀ sd' v' d', (sd', v') ∈
          [(toL "2034/12/23", toL "future"), (toL "1970/7/14", toL "past"),
           (toL "2014/9/14", toL "current")] →
        strptime sd' = .ok d' → d' ≤ dateCode 2014 9 15 → d' ≤ d :=
  (date_resolution (dateCode 2014 9 15)
    [(toL "2034/12/23", toL "future"), (toL "1970/7/14", toL "past"),
     (toL "2014/9/14", toL "current")] (toL "current") (by decide)).1

/-! ### Lemmas about the transform chain -/

theorem splitChar_ne_nil (c : Char) (s : Str) : splitChar c s ≠ [] := by
  cases s with
  | nil => simp [splitChar]
  | cons x rest =>
    unfold splitChar
    by_cases hx : x = c
    · simp [hx]
    · rw [if_neg hx]
      cases splitChar c rest <;> simp

theorem splitChar_not_mem (c : Char) (s : Str) (h : c ∉ s) :
    splitChar c s = [s] := by
  induction s with
  | nil => rfl
  | cons x rest ih =>
    have hx : x ≠ c := fun hc => h (by rw [hc]; exact List.mem_cons_self c rest)
    have hrest : c ∉ rest := fun hc => h (List.mem_cons_of_mem x hc)
    unfold splitChar
    rw [if_neg hx, ih hrest]

theorem splitChar_append_last (c : Char) (s : Str) :
    splitChar c (s ++ [c]) = splitChar c s ++ [[]] := by
  induction s with
  | nil => simp [splitChar]
  | cons x rest ih =>
    simp only [List.cons_append, splitChar, ih]
    by_cases hx : x = c
    · simp [hx, ih]
    · simp only [if_neg hx]
      cases hs : splitChar c rest with
      | nil => exact absurd hs (splitChar_ne_nil c rest)
      | cons hh tt => simp [ih, hs]

theorem foldlM_applyMethod_first_unknown :
    ∀ (pre : List Str) (n : Str) (post : List Str) (v : Str),
      (∀ m ∈ pre, (lookupMethod m).isSome) →
      lookupMethod n = none → n ∉ pyStrOtherAttrs →
      List.foldlM applyMethod v (pre ++ n :: post) = .error (.attributeError n) := by
  intro pre
  induction pre with
  | nil =>
    intro n post v _ hn hnattr
    simp [List.foldlM_cons, applyMethod, hn, hnattr, bind, Except.bind]
  | cons m pre ih =>
    intro n post v hpre hn hnattr
    have hm : (lookupMethod m).isSome := hpre m (List.mem_cons_self m pre)
    cases hmm : lookupMethod m with
    | none =>
      rw [hmm] at hm
      cases hm
    | some f =>
      rw [show List.foldlM applyMethod v ((m :: pre) ++ n :: post)
          = List.foldlM applyMethod (f v) (pre ++ n :: post) from by
        simp [List.foldlM_cons, applyMethod, hmm, bind, Except.bind]]
      exact ih n post (f v) (fun m2 hm2 => hpre m2 (List.mem_cons_of_mem m hm2)) hn hnattr

/-- C9: the transform chain of `AugmentedStr.__format__`.  A specifier
without a `|` (no chain), or with an explicit `|` and an empty chain,
leaves the value untouched apart from the standard formatting delegated to
`str.__format__`.  When the chain reaches a name that is no attribute of
the value at all — every earlier name having resolved to a method — the
dynamic lookup `getattr(orig, name)` fails and formatting raises the
`AttributeError` naming that unknown transform (the spec's `ConfigError`
for an unrecognized name). -/
theorem transform_chain (v fmt : Str) :
    (('|' ∉ fmt) → augFormat v fmt = strFormat v fmt) ∧
    (('|' ∉ fmt) → augFormat v (fmt ++ ['|']) = strFormat v fmt) ∧
    (∀ strfmt methods names pre n post,
       splitChar '|' fmt = [strfmt, methods] →
       splitChar ',' methods = names → names.headD [] ≠ [] →
       names = pre ++ n :: post →
       (∀ m ∈ pre, (lookupMethod m).isSome) →
       lookupMethod n = none → n ∉ pyStrOtherAttrs →
       augFormat v fmt = .error (.attributeError n)) := by
  refine ⟨?_, ?_, ?_⟩
  · intro h
    simp [augFormat, chainNames, strfmtOf, splitChar_not_mem '|' fmt h, splitChar,
      bind, Except.bind, pure, Except.pure]
  · intro h
    have hs : splitChar '|' (fmt ++ ['|']) = [fmt, []] := by
      rw [splitChar_append_last, splitChar_not_mem '|' fmt h]
      rfl
    simp [augFormat, chainNames, strfmtOf, hs, splitChar, bind, Except.bind, pure, Except.pure]
  · intro strfmt methods names pre n post h1 h2 h3 hsplitn hpre hn hnattr
    have hfold : List.foldlM applyMethod v names = .error (.attributeError n) := by
      rw [hsplitn]
      exact foldlM_applyMethod_first_unknown pre n post v hpre hn hnattr
    cases names with
    | nil => exact absurd rfl h3
    | cons m rest =>
      have hm : m ≠ [] := by simpa [List.headD] using h3
      simp [augFormat, chainNames, strfmtOf, h1, h2, hm, hfold, bind, Except.bind]

/-- C9 witness: a plain specifier is pure standard formatting, an explicit
empty chain likewise, and the chain `strip,bogus` — whose first name is a
method and whose second is no attribute — fails with the `AttributeError`
naming `bogus`. -/
theorem transform_chain_witness :
    augFormat (toL "x") (toL ">5") = strFormat (toL "x") (toL ">5") ∧
    augFormat (toL "x") (toL ">5" ++ ['|']) = strFormat (toL "x") (toL ">5") ∧
    augFormat (toL "x") (toL ">30|strip,bogus")
      = .error (.attributeError (toL "bogus")) :=
  ⟨(transform_chain (toL "x") (toL ">5")).1 (by decide),
   (transform_chain (toL "x") (toL ">5")).2.1 (by decide),
   (transform_chain (toL "x") (toL ">30|strip,bogus")).2.2
     (toL ">30") (toL "strip,bogus") [toL "strip", toL "bogus"]
     [toL "strip"] (toL "bogus") []
     (by decide) (by decide) (by decide) rfl
     (by decide) rfl (by decide)⟩

/-! ### Lemmas about missing placeholders -/

theorem defaults_nodup (home : Str) : NoDupKeys (DEFAULTS home) := by
  simp only [NoDupKeys, DEFAULTS, List.map_cons, List.map_nil]
  decide

theorem globalDirectives_nodup (ts : Str) : NoDupKeys (globalDirectives ts) := by
  simp only [NoDupKeys, globalDirectives, List.map_cons, List.map_nil]
  decide

theorem lookup_globalDirectives_keys (ts k : Str) (v : Str)
    (h : lookup (globalDirectives ts) k = some v) :
    k = toL "date" ∨ k = toL "extra_content" := by
  unfold globalDirectives lookup at h
  split at h
  · next heq => exact Or.inl heq.symm
  · unfold lookup at h
    split at h
    · next heq => exact Or.inr heq.symm
    · cases h

/-- The claim's own scoping: the key is defined in more than one of the
three layers named by the spec — built-in defaults, computed global
directives, and the category's additions. -/
def atLeastTwoLayers (home todayStr : Str) (adds : List (Str × Str)) (k : Str) : Prop :=
  (lookup (DEFAULTS home) k ≠ none ∧ lookup (globalDirectives todayStr) k ≠ none) ∨
  (lookup (DEFAULTS home) k ≠ none ∧ lookup adds k ≠ none) ∨
  (lookup (globalDirectives todayStr) k ≠ none ∧ lookup adds k ≠ none)

/-- C8: merge precedence.  For every valid configuration (well-formed
general section, category section present, category resolvable) and every
key present in more than one of the three layers, the merged context of
`parse_config` holds the category-level value when the category additions
define the key; otherwise the computed global directive's value when one
defines it; otherwise the built-in default (a case the more-than-one-layer
hypothesis makes vacuous, since only the defaults would then define the
key). -/
theorem merge_precedence (home todayStr : Str) (today : Nat) (cfg : Config)
    (general opts adds : List (Str × Str)) (c k basedir : Str)
    (hgen : lookup cfg (toL "__general__") = some general)
    (hgennd : NoDupKeys general)
    (hc : c ≠ [])
    (hopts : lookup cfg c = some opts)
    (hbase : lookup (initialConfig home todayStr general) (toL "basedir") = some basedir)
    (haddsnd : NoDupKeys adds)
    (hadds : parseCategory today basedir opts = .ok adds)
    (htwo : atLeastTwoLayers home todayStr adds k) :
    ∃ ctx, parseConfig home todayStr today cfg (some c) = .ok ctx ∧
      (∀ v, lookup adds k = some v → lookup ctx k = some v) ∧
      (lookup adds k = none →
        ∀ v, lookup (globalDirectives todayStr) k = some v → lookup ctx k = some v) ∧
      (lookup adds k = none → lookup (globalDirectives todayStr) k = none →
        ∀ v, lookup (DEFAULTS home) k = some v → lookup ctx k = some v) := by
  -- the merged dict before the subject fix-up
  set initial := initialConfig home todayStr general with hinitial_def
  set merged := dictUpdate initial adds with hmerged_def
  -- lookups through the merged layers
  have hmerged : ∀ k' : Str, lookup merged k'
      = orElseO (lookup adds k') (lookup initial k') := by
    intro k'
    rw [hmerged_def, lookup_dictUpdate, lookupLast_eq_lookup adds k' haddsnd]
  have hinit : ∀ k' : Str, lookup initial k'
      = orElseO (lookup (globalDirectives todayStr) k')
          (orElseO (lookup general k') (lookup (DEFAULTS home) k')) := by
    intro k'
    rw [hinitial_def]
    unfold initialConfig
    rw [lookup_dictUpdate, lookup_dictUpdate, lookup_dictUpdate,
      lookupLast_eq_lookup _ k' (globalDirectives_nodup todayStr),
      lookupLast_eq_lookup _ k' hgennd,
      lookupLast_eq_lookup _ k' (defaults_nodup home)]
    cases lookup (globalDirectives todayStr) k' <;>
      cases lookup general k' <;>
        cases lookup (DEFAULTS home) k' <;> simp [orElseO, lookup]
  -- how parse_config computes, up to the subject fix-up
  have hrun : parseConfig home todayStr today cfg (some c)
      = (match lookup merged (toL "subject") with
         | some s => pure (dictInsert merged (toL "subject") s)
         | none => pure (dictInsert merged (toL "subject") c)) := by
    simp [parseConfig, sectionItems, hgen, hopts, hc, hbase, hadds,
      bind, Except.bind, hmerged_def, hinitial_def]
  -- the subject fix-up preserves every binding that exists
  have hfix : ∀ (ctx2 : List (Str × Str)) (v : Str),
      parseConfig home todayStr today cfg (some c) = .ok ctx2 →
      lookup merged k = some v → lookup ctx2 k = some v := by
    intro ctx2 v hpc hmk
    rw [hrun] at hpc
    cases hsubj : lookup merged (toL "subject") with
    | none =>
      rw [hsubj] at hpc
      cases hpc
      by_cases hk : k = toL "subject"
      · rw [hk] at hmk
        rw [hmk] at hsubj
        cases hsubj
      · rw [lookup_dictInsert_ne merged (toL "subject") k c hk, hmk]
    | some s =>
      rw [hsubj] at hpc
      cases hpc
      by_cases hk : k = toL "subject"
      · subst hk
        rw [hmk] at hsubj
        cases hsubj
        exact lookup_dictInsert_self merged (toL "subject") v
      · rw [lookup_dictInsert_ne merged (toL "subject") k s hk, hmk]
  -- exhibit the merged context
  have hex : ∃ ctx2, parseConfig home todayStr today cfg (some c) = .ok ctx2 := by
    rw [hrun]
    cases lookup merged (toL "subject") with
    | none => exact ⟨_, rfl⟩
    | some s => exact ⟨_, rfl⟩
  obtain ⟨ctx2, hpc⟩ := hex
  refine ⟨ctx2, hpc, ?_, ?_, ?_⟩
  · intro v haddsk
    refine hfix ctx2 v hpc ?_
    rw [hmerged k, haddsk]
    rfl
  · intro haddsk v hglobk
    refine hfix ctx2 v hpc ?_
    rw [hmerged k, haddsk, hinit k, hglobk]
    rfl
  · intro haddsk hglobk v hdefk
    exact absurd htwo (by
      simp [atLeastTwoLayers, haddsk, hglobk])

/-- C8 witness: a configuration whose `work` category overrides `title`
(also a built-in default) resolves `title` to the category value. -/
theorem merge_precedence_witness :
    ∃ ctx, parseConfig (toL "/h") (toL "January 1, 20") 0
        [(toL "__general__", []), (toL "work", [(toL "title", toL "T")])]
        (some (toL "work")) = .ok ctx ∧
      (∀ v, lookup [(toL "title", toL "T"), (toL "dir", toL "/h")] (toL "title") = some v →
        lookup ctx (toL "title") = some v) ∧
      (lookup [(toL "title", toL "T"), (toL "dir", toL "/h")] (toL "title") = none →
        ∀ v, lookup (globalDirectives (toL "January 1, 20")) (toL "title") = some v →
          lookup ctx (toL "title") = some v) ∧
      (lookup [(toL "title", toL "T"), (toL "dir", toL "/h")] (toL "title") = none →
        lookup (globalDirectives (toL "January 1, 20")) (toL "title") = none →
        ∀ v, lookup (DEFAULTS (toL "/h")) (toL "title") = some v →
          lookup ctx (toL "title") = some v) :=
  merge_precedence (toL "/h") (toL "January 1, 20") 0
    [(toL "__general__", []), (toL "work", [(toL "title", toL "T")])]
    [] [(toL "title", toL "T")] [(toL "title", toL "T"), (toL "dir", toL "/h")]
    (toL "work") (toL "title") (toL "/h")
    (by decide) (by decide) (by decide) (by decide) (by decide) (by decide)
    (by decide)
    (Or.inr (Or.inl (by decide)))
